import Mathlib

/-!
Verification of the symbol/reference storage table
(`crates/oxc_semantic/src/symbol/table.rs`).

The table owns two append-only arenas: a dense array of `Symbol` records and
a dense array of `ResolvedReference` records.  Ids (`SymbolId`,
`ResolvedReferenceId`) are 1-based handles; internal storage index = id − 1.

Payload types (AST-node handles, interned names, spans, flag bitsets,
usage kinds) are opaque to the table: they are stored, never branched on, so
we model them with simple concrete types.

Rust panics (out-of-range slice indexing) are modelled by `Option`: `none`
is a trap, `some` a normal return.  The 1-based to 0-based conversion
`index0` is modelled over `Int` so that id 0 yields the (negative, hence
out-of-range) storage index −1, as the documented 1-based discipline
demands.
-/

namespace Oxc

/-- Opaque AST-node handle (`AstNodeId`): stored, never interpreted. -/
abbrev AstNodeId : Type := Nat

/-- Interned name (`Atom`): stored, never interpreted. -/
abbrev Atom : Type := String

/-- Source range (`Span`): stored, never interpreted. -/
structure Span where
  lo : Nat
  hi : Nat
deriving DecidableEq, Inhabited

/-- Declaration-kind bitset (`SymbolFlags`): stored, never branched on. -/
abbrev SymbolFlags : Type := Nat

/-- Modelled from the spec: `SymbolId`, an "opaque, 1-based, dense,
monotonically increasing integer handle" (its defining module is not in the
extracted sources; only `table.rs` is). -/
structure SymbolId where
  id : Nat
deriving DecidableEq, Inhabited

/-- Modelled from the spec: `SymbolId::new` wraps the raw 1-based value. -/
def SymbolId.new (n : Nat) : SymbolId := ⟨n⟩

/-- Modelled from the spec: "internal storage index = id − 1", computed over
`Int` so that id 0 maps to the out-of-range index −1. -/
def SymbolId.index0 (s : SymbolId) : Int := (s.id : Int) - 1

/-- Modelled from the spec: `ResolvedReferenceId`, the 1-based handle into
the global resolved-reference arena. -/
structure ResolvedReferenceId where
  id : Nat
deriving DecidableEq, Inhabited

/-- Modelled from the spec: `ResolvedReferenceId::new` wraps the raw
1-based value. -/
def ResolvedReferenceId.new (n : Nat) : ResolvedReferenceId := ⟨n⟩

/-- Modelled from the spec: "internal storage index = id − 1". -/
def ResolvedReferenceId.index0 (s : ResolvedReferenceId) : Int :=
  (s.id : Int) - 1

/-- Modelled from the spec: a `Reference` is a transient unresolved
identifier-use record carrying "its own span/usage-kind". -/
structure Reference where
  span : Span
  usage : Nat
deriving DecidableEq, Inhabited

/-- Modelled from the spec: a `ResolvedReference` is "a Reference plus the
SymbolId it was bound to". -/
structure ResolvedReference where
  reference : Reference
  symbol_id : SymbolId
deriving DecidableEq, Inhabited

/-- Modelled from the spec: `Reference::resolve_to` converts the Reference
into a ResolvedReference bound to the given symbol. -/
def Reference.resolve_to (r : Reference) (symbol_id : SymbolId) :
    ResolvedReference :=
  ⟨r, symbol_id⟩

/-- Modelled from the spec: a `Symbol` record
{ id, declaration, name, span, flags, references }. -/
structure Symbol where
  id : SymbolId
  declaration : AstNodeId
  name : Atom
  span : Span
  flags : SymbolFlags
  references : List ResolvedReferenceId
deriving DecidableEq, Inhabited

/-- Modelled from the spec: `Symbol::new` records the supplied fields; the
`references` sequence starts empty and "only ever grows". -/
def Symbol.new (id : SymbolId) (declaration : AstNodeId) (name : Atom)
    (span : Span) (flags : SymbolFlags) : Symbol :=
  ⟨id, declaration, name, span, flags, []⟩

/-- Rust `Vec::get` at an `Int` index: `none` for any out-of-range index,
negative indices included. -/
def listGetInt {α : Type} (l : List α) (i : Int) : Option α :=
  if i < 0 then none else l.get? i.toNat

/-- Rust in-place update through `&mut v[i]`: the element at `i` replaced.
Only ever applied at indices already checked in range. -/
def listSetInt {α : Type} (l : List α) (i : Int) (a : α) : List α :=
  if i < 0 then l else l.set i.toNat a

/-- `SymbolTable` (table.rs): the two arenas. -/
structure SymbolTable where
  symbols : List Symbol
  resolved_references : List ResolvedReference
deriving DecidableEq, Inhabited

/-- `SymbolTable::default()`: both arenas empty. -/
def SymbolTable.empty : SymbolTable := ⟨[], []⟩

/-- `SymbolTable::symbols` (table.rs line 61): read-only view of the symbol
arena. -/
def SymbolTable.symbolsView (t : SymbolTable) : List Symbol := t.symbols

/-- `SymbolTable::get_symbol` (table.rs line 66):
`self.symbols.get(id.index0())`. -/
def SymbolTable.get_symbol (t : SymbolTable) (id : SymbolId) :
    Option Symbol :=
  listGetInt t.symbols id.index0

/-- `SymbolTable::create` (table.rs lines 71–82): mint
`SymbolId::new(len + 1)`, build the Symbol, push it; returns the id and the
updated table (the Rust method mutates `&mut self`). -/
def SymbolTable.create (t : SymbolTable) (declaration : AstNodeId)
    (name : Atom) (span : Span) (flags : SymbolFlags) :
    SymbolId × SymbolTable :=
  let symbol_id := SymbolId.new (t.symbols.length + 1)
  let symbol := Symbol.new symbol_id declaration name span flags
  (symbol_id, { t with symbols := t.symbols ++ [symbol] })

/-- `SymbolTable::resolved_references` (table.rs line 85): read-only view of
the resolved-reference arena. -/
def SymbolTable.resolvedReferencesView (t : SymbolTable) :
    List ResolvedReference :=
  t.resolved_references

/-- `SymbolTable::get_resolved_reference` (table.rs line 90):
`self.resolved_references.get(id.index0())`. -/
def SymbolTable.get_resolved_reference (t : SymbolTable)
    (id : ResolvedReferenceId) : Option ResolvedReference :=
  listGetInt t.resolved_references id.index0

/-- The `for reference in references` loop of
`SymbolTable::resolve_reference` (table.rs lines 102–109): each iteration
mints `ResolvedReferenceId::new(resolved_references.len() + 1)`, pushes the
resolved reference onto the global arena and the new id onto the symbol's
own reference list.  `resolved` and `symRefs` are the current values of the
two growing lists. -/
def resolveLoop (resolved : List ResolvedReference)
    (symRefs : List ResolvedReferenceId) (symbol_id : SymbolId) :
    List Reference → List ResolvedReference × List ResolvedReferenceId
  | [] => (resolved, symRefs)
  | reference :: rest =>
    let resolved_reference_id := ResolvedReferenceId.new (resolved.length + 1)
    let resolved_reference := reference.resolve_to symbol_id
    resolveLoop (resolved ++ [resolved_reference])
      (symRefs ++ [resolved_reference_id]) symbol_id rest

/-- `SymbolTable::resolve_reference` (table.rs lines 95–110): first
`&mut self.symbols[symbol_id]` (a trap — `none` — when `symbol_id` is out of
range), then the per-reference loop; the `reserve` calls are capacity hints
with no observable effect.  Returns the updated table. -/
def SymbolTable.resolve_reference (t : SymbolTable)
    (references : List Reference) (symbol_id : SymbolId) :
    Option SymbolTable :=
  match listGetInt t.symbols symbol_id.index0 with
  | none => none
  | some symbol =>
    let p := resolveLoop t.resolved_references symbol.references symbol_id
      references
    some { symbols :=
             listSetInt t.symbols symbol_id.index0
               { symbol with references := p.2 },
           resolved_references := p.1 }

/-- `impl Index<SymbolId> for SymbolTable` (table.rs lines 23–29):
`&self.symbols[index.index0()]`; `none` models the out-of-range trap. -/
def SymbolTable.indexSymbol (t : SymbolTable) (index : SymbolId) :
    Option Symbol :=
  listGetInt t.symbols index.index0

/-- `impl IndexMut<SymbolId> for SymbolTable` (table.rs lines 31–35):
`&mut self.symbols[index.index0()]`.  A use of the returned mutable
reference is modelled by the update `f` applied to the element it points
at; `none` models the out-of-range trap. -/
def SymbolTable.indexMutSymbol (t : SymbolTable) (index : SymbolId)
    (f : Symbol → Symbol) : Option SymbolTable :=
  match listGetInt t.symbols index.index0 with
  | none => none
  | some s =>
    some { t with symbols := listSetInt t.symbols index.index0 (f s) }

/-- `impl Index<ResolvedReferenceId> for SymbolTable` (table.rs lines
37–43): `&self.resolved_references[index.index0()]`. -/
def SymbolTable.indexResolvedReference (t : SymbolTable)
    (index : ResolvedReferenceId) : Option ResolvedReference :=
  listGetInt t.resolved_references index.index0

/-- `impl IndexMut<ResolvedReferenceId> for SymbolTable` (table.rs lines
45–49): `&mut self.resolved_references[index.index0()]`. -/
def SymbolTable.indexMutResolvedReference (t : SymbolTable)
    (index : ResolvedReferenceId) (f : ResolvedReference → ResolvedReference) :
    Option SymbolTable :=
  match listGetInt t.resolved_references index.index0 with
  | none => none
  | some r =>
    some { t with
           resolved_references :=
             listSetInt t.resolved_references index.index0 (f r) }

/-- A sequence of `create` calls with the listed argument quadruples,
returning the final table and the returned ids in call order. -/
def SymbolTable.createMany (t : SymbolTable) :
    List (AstNodeId × Atom × Span × SymbolFlags) →
    SymbolTable × List SymbolId
  | [] => (t, [])
  | a :: rest =>
    let step := t.create a.1 a.2.1 a.2.2.1 a.2.2.2
    let further := step.2.createMany rest
    (further.1, step.1 :: further.2)

/-- One mutating call on the table: either a `create` or a
`resolve_reference`. -/
inductive Op where
  | createOp (declaration : AstNodeId) (name : Atom) (span : Span)
      (flags : SymbolFlags) : Op
  | resolveOp (references : List Reference) (symbol_id : SymbolId) : Op

/-- Perform one call on the table; `none` is a trap. -/
def Op.step (t : SymbolTable) : Op → Option SymbolTable
  | Op.createOp d n sp f => some (t.create d n sp f).2
  | Op.resolveOp refs sid => t.resolve_reference refs sid

/-- Perform a sequence of calls; a trap aborts the run. -/
def runOps (t : SymbolTable) : List Op → Option SymbolTable
  | [] => some t
  | op :: ops =>
    match Op.step t op with
    | none => none
    | some t' => runOps t' ops

/-- Specification side for the per-symbol reference-list invariant: the ids
(1-based positions) of exactly those entries of the global arena that are
bound to `sid`, in arena (commit) order. -/
def specRefsOf (resolved : List ResolvedReference) (sid : SymbolId) :
    List ResolvedReferenceId :=
  (resolved.enum.filter (fun p => p.2.symbol_id == sid)).map
    (fun p => ResolvedReferenceId.new (p.1 + 1))

/-- The store's integrity invariant: every symbol's stored id is its
1-based position; every committed entry is bound to an existing symbol; and
every symbol's `references` list is exactly `specRefsOf` of the global
arena at its id. -/
def TableInv (t : SymbolTable) : Prop :=
  (∀ k s, t.symbols.get? k = some s → s.id = SymbolId.new (k + 1))
  ∧ (∀ r ∈ t.resolved_references,
      1 ≤ r.symbol_id.id ∧ r.symbol_id.id ≤ t.symbols.length)
  ∧ (∀ k s, t.symbols.get? k = some s →
      s.references = specRefsOf t.resolved_references s.id)

/-- `SymbolTable::symbols` as an explicit state-passing call (the Rust
method borrows `&self`): result paired with the table after the call. -/
def SymbolTable.symbolsCall (t : SymbolTable) :
    List Symbol × SymbolTable :=
  (t.symbolsView, t)

/-- `SymbolTable::resolved_references` as an explicit state-passing call. -/
def SymbolTable.resolvedReferencesCall (t : SymbolTable) :
    List ResolvedReference × SymbolTable :=
  (t.resolvedReferencesView, t)

/-- `SymbolTable::get_symbol` as an explicit state-passing call. -/
def SymbolTable.getSymbolCall (t : SymbolTable) (id : SymbolId) :
    Option Symbol × SymbolTable :=
  (t.get_symbol id, t)

/-- `SymbolTable::get_resolved_reference` as an explicit state-passing
call. -/
def SymbolTable.getResolvedReferenceCall (t : SymbolTable)
    (id : ResolvedReferenceId) : Option ResolvedReference × SymbolTable :=
  (t.get_resolved_reference id, t)

/-- `Index<SymbolId>` read as an explicit state-passing call. -/
def SymbolTable.indexSymbolCall (t : SymbolTable) (id : SymbolId) :
    Option Symbol × SymbolTable :=
  (t.indexSymbol id, t)

/-- `Index<ResolvedReferenceId>` read as an explicit state-passing call. -/
def SymbolTable.indexResolvedReferenceCall (t : SymbolTable)
    (id : ResolvedReferenceId) : Option ResolvedReference × SymbolTable :=
  (t.indexResolvedReference id, t)

/-! ### Lemmas about the integer-indexed list operations -/

theorem listGetInt_sub_one {α : Type} (l : List α) (n : Nat) :
    listGetInt l ((n : Int) - 1) =
      if 1 ≤ n ∧ n ≤ l.length then l.get? (n - 1) else none := by
  cases n with
  | zero =>
    have h0 : ((0 : Nat) : Int) - 1 < 0 := by omega
    simp [listGetInt, h0]
  | succ k =>
    have h1 : ((k + 1 : Nat) : Int) - 1 = (k : Int) := by omega
    have h2 : ¬ ((k : Int) < 0) := by omega
    have h3 : ((k : Int)).toNat = k := by omega
    rw [h1]
    by_cases hk : k + 1 ≤ l.length
    · have hcond : 1 ≤ k + 1 ∧ k + 1 ≤ l.length := ⟨by omega, hk⟩
      simp [listGetInt, h2, h3, hcond]
    · have hcond : ¬ (1 ≤ k + 1 ∧ k + 1 ≤ l.length) := by omega
      rw [if_neg hcond]
      simp only [listGetInt, h2, if_false, h3]
      exact List.get?_len_le (by omega)

theorem listSetInt_sub_one {α : Type} (l : List α) (n : Nat) (h : 1 ≤ n)
    (a : α) : listSetInt l ((n : Int) - 1) a = l.set (n - 1) a := by
  cases n with
  | zero => omega
  | succ k =>
    have h1 : ((k + 1 : Nat) : Int) - 1 = (k : Int) := by omega
    have h2 : ¬ ((k : Int) < 0) := by omega
    have h3 : ((k : Int)).toNat = k := by omega
    rw [h1]
    simp [listSetInt, h2, h3]

theorem set_of_get?_eq {α : Type} (l : List α) (n : Nat) (a : α)
    (h : l.get? n = some a) : l.set n a = l := by
  apply List.ext_getElem?
  intro j
  rcases eq_or_ne n j with hj | hj
  · subst hj
    have hlt : n < l.length := by
      by_contra hc
      rw [List.get?_len_le (by omega)] at h
      exact Option.noConfusion h
    rw [List.getElem?_set_self hlt]
    rw [List.get?_eq_getElem?] at h
    exact h.symm
  · exact List.getElem?_set_ne hj

/-! ### Characterization of the checked and trapping accessors -/

theorem get_symbol_eq (t : SymbolTable) (id : SymbolId) :
    t.get_symbol id =
      if 1 ≤ id.id ∧ id.id ≤ t.symbols.length then
        t.symbols.get? (id.id - 1)
      else none :=
  listGetInt_sub_one t.symbols id.id

theorem get_resolved_reference_eq (t : SymbolTable)
    (id : ResolvedReferenceId) :
    t.get_resolved_reference id =
      if 1 ≤ id.id ∧ id.id ≤ t.resolved_references.length then
        t.resolved_references.get? (id.id - 1)
      else none :=
  listGetInt_sub_one t.resolved_references id.id

theorem indexSymbol_eq (t : SymbolTable) (id : SymbolId) :
    t.indexSymbol id =
      if 1 ≤ id.id ∧ id.id ≤ t.symbols.length then
        t.symbols.get? (id.id - 1)
      else none :=
  listGetInt_sub_one t.symbols id.id

theorem indexResolvedReference_eq (t : SymbolTable)
    (id : ResolvedReferenceId) :
    t.indexResolvedReference id =
      if 1 ≤ id.id ∧ id.id ≤ t.resolved_references.length then
        t.resolved_references.get? (id.id - 1)
      else none :=
  listGetInt_sub_one t.resolved_references id.id

theorem get_symbol_isSome (t : SymbolTable) (id : SymbolId) :
    (t.get_symbol id).isSome ↔
      (1 ≤ id.id ∧ id.id ≤ t.symbols.length) := by
  rw [get_symbol_eq]
  by_cases h : 1 ≤ id.id ∧ id.id ≤ t.symbols.length
  · rw [if_pos h]
    have hlt : id.id - 1 < t.symbols.length := by omega
    simp [List.getElem?_eq_some_getElem_iff, hlt, h]
  · rw [if_neg h]
    simp [h]

theorem get_resolved_reference_isSome (t : SymbolTable)
    (id : ResolvedReferenceId) :
    (t.get_resolved_reference id).isSome ↔
      (1 ≤ id.id ∧ id.id ≤ t.resolved_references.length) := by
  rw [get_resolved_reference_eq]
  by_cases h : 1 ≤ id.id ∧ id.id ≤ t.resolved_references.length
  · rw [if_pos h]
    have hlt : id.id - 1 < t.resolved_references.length := by omega
    simp [List.getElem?_eq_some_getElem_iff, hlt, h]
  · rw [if_neg h]
    simp [h]

/-! ### Characterization of `resolve_reference` -/

theorem resolveLoop_spec (sid : SymbolId) (refs : List Reference) :
    ∀ (resolved : List ResolvedReference)
      (symRefs : List ResolvedReferenceId),
      resolveLoop resolved symRefs sid refs =
        (resolved ++ refs.map (fun r => r.resolve_to sid),
         symRefs ++ (List.range refs.length).map
           (fun k => ResolvedReferenceId.new (resolved.length + 1 + k))) := by
  induction refs with
  | nil => intro resolved symRefs; simp [resolveLoop]
  | cons r rest ih =>
    intro resolved symRefs
    rw [resolveLoop, ih]
    simp only [Prod.mk.injEq, List.length_cons, List.length_append,
      List.length_nil, Nat.zero_add, Nat.add_zero]
    refine ⟨by simp, ?_⟩
    rw [List.append_assoc, List.singleton_append, List.range_succ_eq_map,
      List.map_cons, List.map_map]
    simp only [Nat.add_zero]
    congr 1
    congr 1
    refine List.map_congr_left ?_
    intro a _
    simp only [Function.comp_def, ResolvedReferenceId.new,
      ResolvedReferenceId.mk.injEq, Nat.succ_eq_add_one]
    omega

theorem resolve_reference_some (t : SymbolTable) (refs : List Reference)
    (sid : SymbolId) (s : Symbol) (h : t.get_symbol sid = some s) :
    t.resolve_reference refs sid =
      some { symbols := t.symbols.set (sid.id - 1) ({ s with references := s.references ++ (List.range refs.length).map (fun k => ResolvedReferenceId.new (t.resolved_references.length + 1 + k)) }),
             resolved_references := t.resolved_references ++
               refs.map (fun r => r.resolve_to sid) } := by
  have h1 : 1 ≤ sid.id := by
    by_contra hc
    rw [get_symbol_eq, if_neg (by omega)] at h
    exact Option.noConfusion h
  have hget : listGetInt t.symbols sid.index0 = some s := h
  have hidx : sid.index0 = ((sid.id : Int)) - 1 := rfl
  simp only [SymbolTable.resolve_reference, hget, resolveLoop_spec]
  rw [hidx, listSetInt_sub_one t.symbols sid.id h1]

theorem resolve_reference_none (t : SymbolTable) (refs : List Reference)
    (sid : SymbolId) (h : t.get_symbol sid = none) :
    t.resolve_reference refs sid = none := by
  have hget : listGetInt t.symbols sid.index0 = none := h
  simp only [SymbolTable.resolve_reference, hget]

/-! ### Characterization of `create` -/

theorem create_eq (t : SymbolTable) (d : AstNodeId) (n : Atom) (sp : Span)
    (f : SymbolFlags) :
    t.create d n sp f =
      (SymbolId.new (t.symbols.length + 1),
       { t with symbols := t.symbols ++ [Symbol.new (SymbolId.new (t.symbols.length + 1)) d n sp f] }) :=
  rfl

theorem createMany_spec (args : List (AstNodeId × Atom × Span × SymbolFlags)) :
    ∀ t : SymbolTable,
      ((t.createMany args).1.symbols =
         t.symbols ++ (args.enumFrom t.symbols.length).map (fun p => Symbol.new (SymbolId.new (p.1 + 1)) p.2.1 p.2.2.1 p.2.2.2.1 p.2.2.2.2))
      ∧ ((t.createMany args).1.resolved_references = t.resolved_references)
      ∧ ((t.createMany args).2 =
          (List.range args.length).map (fun i => SymbolId.new (t.symbols.length + i + 1))) := by
  induction args with
  | nil => intro t; simp [SymbolTable.createMany]
  | cons a rest ih =>
    intro t
    obtain ⟨ih1, ih2, ih3⟩ := ih (t.create a.1 a.2.1 a.2.2.1 a.2.2.2).2
    have hsym : (t.create a.1 a.2.1 a.2.2.1 a.2.2.2).2.symbols =
        t.symbols ++ [Symbol.new (SymbolId.new (t.symbols.length + 1)) a.1 a.2.1 a.2.2.1 a.2.2.2] :=
      rfl
    have hlen : (t.create a.1 a.2.1 a.2.2.1 a.2.2.2).2.symbols.length =
        t.symbols.length + 1 := by
      rw [hsym]; simp
    refine ⟨?_, ?_, ?_⟩
    · show (((t.create a.1 a.2.1 a.2.2.1 a.2.2.2).2.createMany rest).1).symbols = _
      rw [ih1, hsym]
      simp only [List.length_append, List.length_cons, List.length_nil,
        Nat.zero_add, Nat.add_zero]
      rw [List.append_assoc, List.singleton_append, List.enumFrom_cons,
        List.map_cons]
    · show (((t.create a.1 a.2.1 a.2.2.1 a.2.2.2).2.createMany rest).1).resolved_references = _
      rw [ih2]
      rfl
    · show (t.create a.1 a.2.1 a.2.2.1 a.2.2.2).1 :: ((t.create a.1 a.2.1 a.2.2.1 a.2.2.2).2.createMany rest).2 = _
      rw [ih3, hlen]
      simp only [List.length_cons, List.range_succ_eq_map, List.map_cons,
        List.map_map, Nat.add_zero]
      congr 1
      refine List.map_congr_left ?_
      intro i _
      simp only [Function.comp_def, SymbolId.new, SymbolId.mk.injEq,
        Nat.succ_eq_add_one]
      omega

/-! ### Lemmas about `specRefsOf` and the table invariant -/

theorem specRefsOf_append (l1 l2 : List ResolvedReference) (sid : SymbolId) :
    specRefsOf (l1 ++ l2) sid =
      specRefsOf l1 sid ++
        ((l2.enumFrom l1.length).filter (fun p => p.2.symbol_id == sid)).map
          (fun p => ResolvedReferenceId.new (p.1 + 1)) := by
  unfold specRefsOf
  rw [List.enum_append, List.filter_append, List.map_append]

theorem filter_enumFrom_eq_nil {α : Type} (l : List α) (pred : α → Bool)
    (h : ∀ r ∈ l, pred r = false) :
    ∀ off : Nat, (l.enumFrom off).filter (fun p => pred p.2) = [] := by
  induction l with
  | nil => intro off; simp
  | cons x rest ih =>
    intro off
    have hx : pred x = false := h x (by simp)
    have ih' := ih (fun r hr => h r (List.mem_cons_of_mem _ hr)) (off + 1)
    simp [hx, ih']

theorem specRefs_batch (sid : SymbolId) (refs : List Reference) :
    ∀ off : Nat,
      (((refs.map (fun r => r.resolve_to sid)).enumFrom off).filter
          (fun p => p.2.symbol_id == sid)).map
        (fun p => ResolvedReferenceId.new (p.1 + 1)) =
      (List.range refs.length).map
        (fun k => ResolvedReferenceId.new (off + 1 + k)) := by
  induction refs with
  | nil => intro off; simp
  | cons r rest ih =>
    intro off
    have hmatch : ((r.resolve_to sid).symbol_id == sid) = true := by
      simp [Reference.resolve_to]
    simp only [List.map_cons, List.enumFrom_cons, List.filter_cons, hmatch,
      if_true, List.length_cons, List.range_succ_eq_map, List.map_map]
    rw [ih (off + 1)]
    simp only [Nat.add_zero, List.map_cons]
    congr 1
    refine List.map_congr_left ?_
    intro a _
    simp only [Function.comp_def, ResolvedReferenceId.new,
      ResolvedReferenceId.mk.injEq, Nat.succ_eq_add_one]
    omega

theorem specRefsOf_append_other (l1 : List ResolvedReference)
    (refs : List Reference) (sid other : SymbolId) (h : other ≠ sid) :
    specRefsOf (l1 ++ refs.map (fun r => r.resolve_to sid)) other =
      specRefsOf l1 other := by
  rw [specRefsOf_append]
  have hnil : ((refs.map (fun r => r.resolve_to sid)).enumFrom
      l1.length).filter (fun p => p.2.symbol_id == other) = [] := by
    refine filter_enumFrom_eq_nil (refs.map (fun r => r.resolve_to sid))
      (fun r => r.symbol_id == other) ?_ l1.length
    intro r hr
    rcases List.mem_map.mp hr with ⟨r0, _, rfl⟩
    simp [Reference.resolve_to]
    exact fun hc => absurd hc.symm h
  rw [hnil]
  simp

theorem specRefsOf_append_self (l1 : List ResolvedReference)
    (refs : List Reference) (sid : SymbolId) :
    specRefsOf (l1 ++ refs.map (fun r => r.resolve_to sid)) sid =
      specRefsOf l1 sid ++
        (List.range refs.length).map
          (fun k => ResolvedReferenceId.new (l1.length + 1 + k)) := by
  rw [specRefsOf_append, specRefs_batch]

theorem specRefsOf_eq_nil (l : List ResolvedReference) (sid : SymbolId)
    (h : ∀ r ∈ l, r.symbol_id ≠ sid) : specRefsOf l sid = [] := by
  unfold specRefsOf
  have hnil : (l.enumFrom 0).filter (fun p => p.2.symbol_id == sid) = [] := by
    refine filter_enumFrom_eq_nil l (fun r => r.symbol_id == sid) ?_ 0
    intro r hr
    simp [h r hr]
  rw [List.enum]
  rw [hnil]
  simp

theorem SymbolId.new_id (sid : SymbolId) : SymbolId.new sid.id = sid := rfl

theorem get_symbol_some_facts (t : SymbolTable) (sid : SymbolId) (s : Symbol)
    (h : t.get_symbol sid = some s) :
    1 ≤ sid.id ∧ sid.id ≤ t.symbols.length ∧
      t.symbols.get? (sid.id - 1) = some s := by
  rw [get_symbol_eq] at h
  by_cases hc : 1 ≤ sid.id ∧ sid.id ≤ t.symbols.length
  · rw [if_pos hc] at h
    exact ⟨hc.1, hc.2, h⟩
  · rw [if_neg hc] at h
    exact Option.noConfusion h

theorem resolve_reference_some_inv (t : SymbolTable) (refs : List Reference)
    (sid : SymbolId) (t' : SymbolTable)
    (h : t.resolve_reference refs sid = some t') :
    ∃ s, t.get_symbol sid = some s ∧
      t'.symbols = t.symbols.set (sid.id - 1) ({ s with references := s.references ++ (List.range refs.length).map (fun k => ResolvedReferenceId.new (t.resolved_references.length + 1 + k)) }) ∧
      t'.resolved_references = t.resolved_references ++
        refs.map (fun r => r.resolve_to sid) := by
  cases hg : t.get_symbol sid with
  | none =>
    rw [resolve_reference_none t refs sid hg] at h
    exact Option.noConfusion h
  | some s =>
    rw [resolve_reference_some t refs sid s hg] at h
    have ht : t' = { symbols := t.symbols.set (sid.id - 1) ({ s with references := s.references ++ (List.range refs.length).map (fun k => ResolvedReferenceId.new (t.resolved_references.length + 1 + k)) }),
                     resolved_references := t.resolved_references ++
                       refs.map (fun r => r.resolve_to sid) } :=
      (Option.some.inj h).symm
    exact ⟨s, rfl, by rw [ht], by rw [ht]⟩

theorem tableInv_empty : TableInv SymbolTable.empty := by
  refine ⟨?_, ?_, ?_⟩
  · intro k s hk
    simp [SymbolTable.empty] at hk
  · intro r hr
    simp [SymbolTable.empty] at hr
  · intro k s hk
    simp [SymbolTable.empty] at hk

theorem tableInv_create (t : SymbolTable) (d : AstNodeId) (n : Atom)
    (sp : Span) (f : SymbolFlags) (hInv : TableInv t) :
    TableInv (t.create d n sp f).2 := by
  obtain ⟨h1, h2, h3⟩ := hInv
  have hsym : (t.create d n sp f).2.symbols =
      t.symbols ++ [Symbol.new (SymbolId.new (t.symbols.length + 1)) d n sp f] :=
    rfl
  have hres : (t.create d n sp f).2.resolved_references =
      t.resolved_references := rfl
  refine ⟨?_, ?_, ?_⟩
  · intro k s hk
    rw [hsym] at hk
    by_cases hlt : k < t.symbols.length
    · rw [List.get?_append hlt] at hk
      exact h1 k s hk
    · by_cases heq : k = t.symbols.length
      · subst heq
        rw [List.get?_concat_length] at hk
        cases hk
        rfl
      · have hlen2 : (t.symbols ++ [Symbol.new (SymbolId.new (t.symbols.length + 1)) d n sp f]).length ≤ k := by
          simp
          omega
        rw [List.get?_len_le hlen2] at hk
        exact Option.noConfusion hk
  · intro r hr
    rw [hres] at hr
    have hb := h2 r hr
    rw [hsym]
    simp
    omega
  · intro k s hk
    rw [hres]
    rw [hsym] at hk
    by_cases hlt : k < t.symbols.length
    · rw [List.get?_append hlt] at hk
      exact h3 k s hk
    · by_cases heq : k = t.symbols.length
      · subst heq
        rw [List.get?_concat_length] at hk
        cases hk
        refine (specRefsOf_eq_nil t.resolved_references _ ?_).symm
        intro r hr hc
        have hb := h2 r hr
        have hid : r.symbol_id.id = t.symbols.length + 1 := by
          rw [hc]
          rfl
        omega
      · have hlen2 : (t.symbols ++ [Symbol.new (SymbolId.new (t.symbols.length + 1)) d n sp f]).length ≤ k := by
          simp
          omega
        rw [List.get?_len_le hlen2] at hk
        exact Option.noConfusion hk

theorem tableInv_resolve (t : SymbolTable) (refs : List Reference)
    (sid : SymbolId) (t' : SymbolTable) (hInv : TableInv t)
    (h : t.resolve_reference refs sid = some t') : TableInv t' := by
  obtain ⟨h1, h2, h3⟩ := hInv
  obtain ⟨s, hg, hsyms, hres⟩ := resolve_reference_some_inv t refs sid t' h
  obtain ⟨hs1, hs2, hs3⟩ := get_symbol_some_facts t sid s hg
  have hsid : s.id = sid := by
    rw [h1 (sid.id - 1) s hs3]
    have he : sid.id - 1 + 1 = sid.id := by omega
    rw [he]
    exact SymbolId.new_id sid
  have hilt : sid.id - 1 < t.symbols.length := by omega
  refine ⟨?_, ?_, ?_⟩
  · intro k u hk
    rw [hsyms] at hk
    by_cases hkk : k = sid.id - 1
    · subst hkk
      rw [List.get?_eq_getElem?, List.getElem?_set_self hilt] at hk
      cases hk
      show s.id = SymbolId.new (sid.id - 1 + 1)
      have he : sid.id - 1 + 1 = sid.id := by omega
      rw [he, hsid]
      exact (SymbolId.new_id sid).symm
    · rw [List.get?_eq_getElem?,
        List.getElem?_set_ne (fun hc => hkk hc.symm),
        ← List.get?_eq_getElem?] at hk
      exact h1 k u hk
  · intro r hr
    rw [hres] at hr
    rw [hsyms, List.length_set]
    rcases List.mem_append.mp hr with hold | hnew
    · exact h2 r hold
    · rcases List.mem_map.mp hnew with ⟨r0, _, rfl⟩
      simp [Reference.resolve_to]
      omega
  · intro k u hk
    rw [hsyms] at hk
    rw [hres]
    by_cases hkk : k = sid.id - 1
    · subst hkk
      rw [List.get?_eq_getElem?, List.getElem?_set_self hilt] at hk
      cases hk
      show s.references ++ (List.range refs.length).map (fun k => ResolvedReferenceId.new (t.resolved_references.length + 1 + k)) = specRefsOf (t.resolved_references ++ refs.map (fun r => r.resolve_to sid)) s.id
      have hrefs : s.references = specRefsOf t.resolved_references sid := by
        rw [h3 (sid.id - 1) s hs3, hsid]
      rw [hsid, specRefsOf_append_self, ← hrefs]
    · rw [List.get?_eq_getElem?,
        List.getElem?_set_ne (fun hc => hkk hc.symm),
        ← List.get?_eq_getElem?] at hk
      have hu := h3 k u hk
      have huid : u.id = SymbolId.new (k + 1) := h1 k u hk
      have hne : u.id ≠ sid := by
        rw [huid]
        intro hc
        have hkc : k + 1 = sid.id := by
          have hcc := congrArg SymbolId.id hc
          simpa [SymbolId.new] using hcc
        omega
      rw [specRefsOf_append_other t.resolved_references refs sid u.id hne]
      exact hu

theorem tableInv_step (t : SymbolTable) (op : Op) (t' : SymbolTable)
    (hInv : TableInv t) (h : Op.step t op = some t') : TableInv t' := by
  cases op with
  | createOp d n sp f =>
    simp only [Op.step] at h
    cases h
    exact tableInv_create t d n sp f hInv
  | resolveOp refs sid =>
    simp only [Op.step] at h
    exact tableInv_resolve t refs sid t' hInv h

theorem tableInv_runOps (ops : List Op) :
    ∀ t t' : SymbolTable, TableInv t → runOps t ops = some t' →
      TableInv t' := by
  induction ops with
  | nil =>
    intro t t' hInv h
    rw [runOps] at h
    cases h
    exact hInv
  | cons op ops ih =>
    intro t t' hInv h
    rw [runOps] at h
    cases hstep : Op.step t op with
    | none =>
      rw [hstep] at h
      exact Option.noConfusion h
    | some t1 =>
      rw [hstep] at h
      exact ih t1 t' (tableInv_step t op t1 hInv hstep) h

/-! ### Frame and no-op lemmas -/

theorem resolve_reference_nil (t : SymbolTable) (sid : SymbolId) (s : Symbol)
    (h : t.get_symbol sid = some s) : t.resolve_reference [] sid = some t := by
  rw [resolve_reference_some t [] sid s h]
  obtain ⟨hs1, hs2, hs3⟩ := get_symbol_some_facts t sid s h
  have hset : t.symbols.set (sid.id - 1) s = t.symbols :=
    set_of_get?_eq _ _ _ hs3
  have he1 : ({ s with references := s.references ++ (List.range (0 : Nat)).map (fun k => ResolvedReferenceId.new (t.resolved_references.length + 1 + k)) }) = s := by
    simp only [List.range_zero, List.map_nil, List.append_nil]
  congr 1
  show { symbols := t.symbols.set (sid.id - 1) ({ s with references := s.references ++ (List.range (0 : Nat)).map (fun k => ResolvedReferenceId.new (t.resolved_references.length + 1 + k)) }), resolved_references := t.resolved_references ++ [] } = t
  rw [he1, hset, List.append_nil]

theorem resolve_frame (t : SymbolTable) (refs : List Reference)
    (sid : SymbolId) (t' : SymbolTable)
    (h : t.resolve_reference refs sid = some t') :
    (t'.resolved_references.take t.resolved_references.length =
       t.resolved_references)
    ∧ (∀ j : Nat, j ≠ sid.id - 1 → t'.symbols.get? j = t.symbols.get? j)
    ∧ (∀ s s' : Symbol, t.symbols.get? (sid.id - 1) = some s →
        t'.symbols.get? (sid.id - 1) = some s' →
        s' = { s with references := s'.references } ∧
          s'.references.take s.references.length = s.references) := by
  obtain ⟨s0, hg0, hsyms, hres⟩ := resolve_reference_some_inv t refs sid t' h
  obtain ⟨hs1, hs2, hs3⟩ := get_symbol_some_facts t sid s0 hg0
  have hilt : sid.id - 1 < t.symbols.length := by omega
  refine ⟨?_, ?_, ?_⟩
  · rw [hres]
    exact List.take_left _ _
  · intro j hj
    rw [hsyms]
    exact List.get?_set_ne _ _ (fun hc => hj hc.symm)
  · intro s s' hs hs'
    have hseq : s = s0 := by
      rw [hs3] at hs
      exact (Option.some.inj hs).symm
    subst hseq
    rw [hsyms, List.get?_eq_getElem?, List.getElem?_set_self hilt] at hs'
    have hs'eq : s' = { s with references := s.references ++ (List.range refs.length).map (fun k => ResolvedReferenceId.new (t.resolved_references.length + 1 + k)) } :=
      (Option.some.inj hs').symm
    subst hs'eq
    exact ⟨rfl, List.take_left _ _⟩

theorem create_frame (t : SymbolTable) (d : AstNodeId) (n : Atom)
    (sp : Span) (f : SymbolFlags) :
    ((t.create d n sp f).2.resolved_references = t.resolved_references)
    ∧ ((t.create d n sp f).2.symbols.take t.symbols.length = t.symbols)
    ∧ (∀ j : Nat, j < t.symbols.length →
        (t.create d n sp f).2.symbols.get? j = t.symbols.get? j) := by
  refine ⟨rfl, ?_, ?_⟩
  · show (t.symbols ++ [Symbol.new (SymbolId.new (t.symbols.length + 1)) d n sp f]).take t.symbols.length = t.symbols
    exact List.take_left _ _
  · intro j hj
    show (t.symbols ++ [Symbol.new (SymbolId.new (t.symbols.length + 1)) d n sp f]).get? j = t.symbols.get? j
    exact List.get?_append hj

/-! ### Characterization of the read-write indexed access -/

theorem indexMutSymbol_eq (t : SymbolTable) (id : SymbolId)
    (f : Symbol → Symbol) :
    t.indexMutSymbol id f =
      (t.indexSymbol id).map
        (fun s => { t with symbols := t.symbols.set (id.id - 1) (f s) }) := by
  have hidx : id.index0 = ((id.id : Int)) - 1 := rfl
  cases hg : listGetInt t.symbols id.index0 with
  | none =>
    have hg2 : t.indexSymbol id = none := hg
    simp only [SymbolTable.indexMutSymbol, hg, hg2, Option.map_none']
  | some s =>
    have hg2 : t.indexSymbol id = some s := hg
    have h1 : 1 ≤ id.id := by
      by_contra hc
      have hnone : t.indexSymbol id = none := by
        rw [indexSymbol_eq, if_neg (by omega)]
      rw [hnone] at hg2
      exact Option.noConfusion hg2
    simp only [SymbolTable.indexMutSymbol, hg, hg2, Option.map_some']
    rw [hidx, listSetInt_sub_one t.symbols id.id h1 (f s)]

theorem indexMutResolvedReference_eq (t : SymbolTable)
    (id : ResolvedReferenceId) (g : ResolvedReference → ResolvedReference) :
    t.indexMutResolvedReference id g =
      (t.indexResolvedReference id).map
        (fun r => { t with resolved_references := t.resolved_references.set (id.id - 1) (g r) }) := by
  have hidx : id.index0 = ((id.id : Int)) - 1 := rfl
  cases hg : listGetInt t.resolved_references id.index0 with
  | none =>
    have hg2 : t.indexResolvedReference id = none := hg
    simp only [SymbolTable.indexMutResolvedReference, hg, hg2,
      Option.map_none']
  | some r =>
    have hg2 : t.indexResolvedReference id = some r := hg
    have h1 : 1 ≤ id.id := by
      by_contra hc
      have hnone : t.indexResolvedReference id = none := by
        rw [indexResolvedReference_eq, if_neg (by omega)]
      rw [hnone] at hg2
      exact Option.noConfusion hg2
    simp only [SymbolTable.indexMutResolvedReference, hg, hg2,
      Option.map_some']
    rw [hidx, listSetInt_sub_one t.resolved_references id.id h1 (g r)]

/-! ### Claim theorems -/

/-- C1: for every batch `refs` and every `sid` naming an existing Symbol,
`resolve_reference` processes the references in input order, allocating for
each the next global ResolvedReferenceId (arena length + 1 at that moment),
appending the reference bound to `sid` to the global arena, and appending
that same id to `sid`'s own references list — so exactly `refs.length`
entries are added to each, in matching order. -/
theorem claim1_resolve_reference_batch (t : SymbolTable)
    (refs : List Reference) (sid : SymbolId) (s : Symbol)
    (h : t.get_symbol sid = some s) :
    t.resolve_reference refs sid =
      some { symbols := t.symbols.set (sid.id - 1) ({ s with references := s.references ++ (List.range refs.length).map (fun k => ResolvedReferenceId.new (t.resolved_references.length + 1 + k)) }),
             resolved_references := t.resolved_references ++
               refs.map (fun r => r.resolve_to sid) } :=
  resolve_reference_some t refs sid s h

theorem claim1_witness :
    (SymbolTable.mk [Symbol.new ⟨1⟩ 0 "x" ⟨0, 1⟩ 0] []).resolve_reference
        [⟨⟨5, 6⟩, 0⟩] ⟨1⟩ =
      some (SymbolTable.mk [Symbol.mk ⟨1⟩ 0 "x" ⟨0, 1⟩ 0 [⟨1⟩]]
        [⟨⟨⟨5, 6⟩, 0⟩, ⟨1⟩⟩]) :=
  (claim1_resolve_reference_batch (SymbolTable.mk
      [Symbol.new ⟨1⟩ 0 "x" ⟨0, 1⟩ 0] []) [⟨⟨5, 6⟩, 0⟩] ⟨1⟩
      (Symbol.new ⟨1⟩ 0 "x" ⟨0, 1⟩ 0) (by decide)).trans (by decide)

/-- C2: a sequence of n `create` calls from the empty store returns ids
exactly 1..n in call order, never fails, and `symbols()[i-1]` is the Symbol
created by the i-th call. -/
theorem claim2_create_sequence
    (args : List (AstNodeId × Atom × Span × SymbolFlags)) :
    ((SymbolTable.empty.createMany args).2 =
       (List.range args.length).map (fun i => SymbolId.new (i + 1)))
    ∧ ((SymbolTable.empty.createMany args).1.symbolsView =
       args.enum.map (fun p => Symbol.new (SymbolId.new (p.1 + 1)) p.2.1 p.2.2.1 p.2.2.2.1 p.2.2.2.2)) := by
  obtain ⟨h1, _h2, h3⟩ := createMany_spec args SymbolTable.empty
  constructor
  · rw [h3]
    refine List.map_congr_left ?_
    intro i _
    show SymbolId.new (SymbolTable.empty.symbols.length + i + 1) =
      SymbolId.new (i + 1)
    simp [SymbolTable.empty]
  · show (SymbolTable.empty.createMany args).1.symbols = _
    rw [h1]
    show SymbolTable.empty.symbols ++
        (args.enumFrom SymbolTable.empty.symbols.length).map _ = _
    simp [SymbolTable.empty, List.enum]

/-- C3: the checked accessors `get_symbol` and `get_resolved_reference`
return the matching record exactly when 1 ≤ id ≤ count (the record stored
at index id − 1) and `none` otherwise, for all ids including 0 and ids far
beyond the current count, never trapping. -/
theorem claim3_checked_lookups (t : SymbolTable) (id : SymbolId)
    (rid : ResolvedReferenceId) :
    (t.get_symbol id =
       if 1 ≤ id.id ∧ id.id ≤ t.symbols.length then
         t.symbols.get? (id.id - 1)
       else none)
    ∧ ((t.get_symbol id).isSome ↔ (1 ≤ id.id ∧ id.id ≤ t.symbols.length))
    ∧ (t.get_resolved_reference rid =
       if 1 ≤ rid.id ∧ rid.id ≤ t.resolved_references.length then
         t.resolved_references.get? (rid.id - 1)
       else none)
    ∧ ((t.get_resolved_reference rid).isSome ↔
       (1 ≤ rid.id ∧ rid.id ≤ t.resolved_references.length)) :=
  ⟨get_symbol_eq t id, get_symbol_isSome t id,
   get_resolved_reference_eq t rid, get_resolved_reference_isSome t rid⟩

/-- C4: `resolve_reference` with a `symbol_id` that does not name an
existing Symbol traps (models the Rust panic) rather than returning or
partially committing, for batches of any length. -/
theorem claim4_resolve_invalid_traps (t : SymbolTable)
    (refs : List Reference) (sid : SymbolId)
    (h : t.get_symbol sid = none) :
    t.resolve_reference refs sid = none :=
  resolve_reference_none t refs sid h

theorem claim4_witness :
    (SymbolTable.mk [] []).resolve_reference [⟨⟨5, 6⟩, 0⟩] ⟨1⟩ = none :=
  claim4_resolve_invalid_traps (SymbolTable.mk [] []) [⟨⟨5, 6⟩, 0⟩] ⟨1⟩
    (by decide)

/-- C5: direct indexed access by SymbolId and by ResolvedReferenceId, in
both read and read-write forms, addresses the record stored at position
id − 1 when 1 ≤ id ≤ count and traps exactly when the id is out of that
range. -/
theorem claim5_indexed_access (t : SymbolTable) (id : SymbolId)
    (rid : ResolvedReferenceId) (f : Symbol → Symbol)
    (g : ResolvedReference → ResolvedReference) :
    (t.indexSymbol id =
       if 1 ≤ id.id ∧ id.id ≤ t.symbols.length then
         t.symbols.get? (id.id - 1)
       else none)
    ∧ ((t.indexSymbol id).isSome ↔ (1 ≤ id.id ∧ id.id ≤ t.symbols.length))
    ∧ (t.indexMutSymbol id f =
       (t.indexSymbol id).map
         (fun s => { t with symbols := t.symbols.set (id.id - 1) (f s) }))
    ∧ (t.indexResolvedReference rid =
       if 1 ≤ rid.id ∧ rid.id ≤ t.resolved_references.length then
         t.resolved_references.get? (rid.id - 1)
       else none)
    ∧ ((t.indexResolvedReference rid).isSome ↔
       (1 ≤ rid.id ∧ rid.id ≤ t.resolved_references.length))
    ∧ (t.indexMutResolvedReference rid g =
       (t.indexResolvedReference rid).map
         (fun r => { t with resolved_references := t.resolved_references.set (rid.id - 1) (g r) })) := by
  refine ⟨indexSymbol_eq t id, ?_, indexMutSymbol_eq t id f,
    indexResolvedReference_eq t rid, ?_,
    indexMutResolvedReference_eq t rid g⟩
  · have h := get_symbol_isSome t id
    exact h
  · have h := get_resolved_reference_isSome t rid
    exact h

/-- C6: after any sequence of `create` and `resolve_reference` calls from
the empty store, every Symbol's references list contains exactly the
ResolvedReferenceIds of the arena entries bound to that Symbol's id, in
commit order — never an id produced for another symbol. -/
theorem claim6_references_exact (ops : List Op) (t : SymbolTable)
    (h : runOps SymbolTable.empty ops = some t) :
    ∀ (k : Nat) (s : Symbol), t.symbols.get? k = some s →
      s.references = specRefsOf t.resolved_references s.id := by
  have hInv := tableInv_runOps ops SymbolTable.empty t tableInv_empty h
  exact hInv.2.2

theorem claim6_witness :
    (Symbol.mk ⟨1⟩ 0 "x" ⟨0, 1⟩ 0 [⟨1⟩]).references =
      specRefsOf [⟨⟨⟨5, 6⟩, 0⟩, ⟨1⟩⟩]
        (Symbol.mk ⟨1⟩ 0 "x" ⟨0, 1⟩ 0 [⟨1⟩]).id := by
  have h := claim6_references_exact
    [Op.createOp 0 "x" ⟨0, 1⟩ 0, Op.resolveOp [⟨⟨5, 6⟩, 0⟩] ⟨1⟩]
    (SymbolTable.mk [Symbol.mk ⟨1⟩ 0 "x" ⟨0, 1⟩ 0 [⟨1⟩]]
      [⟨⟨⟨5, 6⟩, 0⟩, ⟨1⟩⟩])
    (by decide) 0 (Symbol.mk ⟨1⟩ 0 "x" ⟨0, 1⟩ 0 [⟨1⟩]) (by decide)
  exact h

/-- C7: mutation is append-only — `resolve_reference` keeps every
previously committed arena entry and every Symbol other than the target
unchanged, only lengthening the arena and the target's references list;
`create` keeps the arena and all previously created Symbols unchanged. -/
theorem claim7_append_only_frame (t : SymbolTable) :
    (∀ (refs : List Reference) (sid : SymbolId) (t' : SymbolTable),
       t.resolve_reference refs sid = some t' →
       (t'.resolved_references.take t.resolved_references.length =
          t.resolved_references)
       ∧ (t'.resolved_references.length =
          t.resolved_references.length + refs.length)
       ∧ (∀ j : Nat, j ≠ sid.id - 1 →
           t'.symbols.get? j = t.symbols.get? j)
       ∧ (∀ s s' : Symbol, t.symbols.get? (sid.id - 1) = some s →
           t'.symbols.get? (sid.id - 1) = some s' →
           s' = { s with references := s'.references } ∧
             s'.references.take s.references.length = s.references))
    ∧ (∀ (d : AstNodeId) (n : Atom) (sp : Span) (f : SymbolFlags),
        ((t.create d n sp f).2.resolved_references = t.resolved_references)
        ∧ ((t.create d n sp f).2.symbols.take t.symbols.length =
           t.symbols)) := by
  constructor
  · intro refs sid t' h
    obtain ⟨fr1, fr2, fr3⟩ := resolve_frame t refs sid t' h
    obtain ⟨s0, hg0, hsyms, hres⟩ := resolve_reference_some_inv t refs sid t' h
    refine ⟨fr1, ?_, fr2, fr3⟩
    rw [hres]
    simp
  · intro d n sp f
    obtain ⟨c1, c2, _c3⟩ := create_frame t d n sp f
    exact ⟨c1, c2⟩

theorem claim7_witness :
    (SymbolTable.mk [Symbol.new ⟨1⟩ 0 "x" ⟨0, 1⟩ 0, Symbol.mk ⟨2⟩ 1 "y" ⟨2, 3⟩ 0 [⟨1⟩]] [⟨⟨⟨5, 6⟩, 0⟩, ⟨2⟩⟩]).symbols.get? 0 =
      (SymbolTable.mk [Symbol.new ⟨1⟩ 0 "x" ⟨0, 1⟩ 0, Symbol.new ⟨2⟩ 1 "y" ⟨2, 3⟩ 0] []).symbols.get? 0 := by
  have h := (claim7_append_only_frame (SymbolTable.mk
      [Symbol.new ⟨1⟩ 0 "x" ⟨0, 1⟩ 0, Symbol.new ⟨2⟩ 1 "y" ⟨2, 3⟩ 0]
      [])).1 [⟨⟨5, 6⟩, 0⟩] ⟨2⟩
    (SymbolTable.mk [Symbol.new ⟨1⟩ 0 "x" ⟨0, 1⟩ 0, Symbol.mk ⟨2⟩ 1 "y" ⟨2, 3⟩ 0 [⟨1⟩]] [⟨⟨⟨5, 6⟩, 0⟩, ⟨2⟩⟩]) (by decide)
  exact h.2.2.1 0 (by decide)

/-- C8: all read accessors are pure — with no mutation in between, two
calls of the same accessor on the same store with the same argument return
identical results and leave the store unchanged. -/
theorem claim8_read_accessors_pure (t : SymbolTable) (id : SymbolId)
    (rid : ResolvedReferenceId) :
    ((t.symbolsCall).1 = ((t.symbolsCall).2.symbolsCall).1 ∧
      ((t.symbolsCall).2.symbolsCall).2 = t)
    ∧ ((t.resolvedReferencesCall).1 =
        ((t.resolvedReferencesCall).2.resolvedReferencesCall).1 ∧
      ((t.resolvedReferencesCall).2.resolvedReferencesCall).2 = t)
    ∧ ((t.getSymbolCall id).1 =
        ((t.getSymbolCall id).2.getSymbolCall id).1 ∧
      ((t.getSymbolCall id).2.getSymbolCall id).2 = t)
    ∧ ((t.getResolvedReferenceCall rid).1 =
        ((t.getResolvedReferenceCall rid).2.getResolvedReferenceCall rid).1 ∧
      ((t.getResolvedReferenceCall rid).2.getResolvedReferenceCall rid).2 = t)
    ∧ ((t.indexSymbolCall id).1 =
        ((t.indexSymbolCall id).2.indexSymbolCall id).1 ∧
      ((t.indexSymbolCall id).2.indexSymbolCall id).2 = t)
    ∧ ((t.indexResolvedReferenceCall rid).1 =
        ((t.indexResolvedReferenceCall rid).2.indexResolvedReferenceCall rid).1 ∧
      ((t.indexResolvedReferenceCall rid).2.indexResolvedReferenceCall rid).2 = t) :=
  ⟨⟨rfl, rfl⟩, ⟨rfl, rfl⟩, ⟨rfl, rfl⟩, ⟨rfl, rfl⟩, ⟨rfl, rfl⟩, ⟨rfl, rfl⟩⟩

/-- C9: an empty batch still traps when `symbol_id` does not name an
existing Symbol (the validity check precedes the loop), and with a valid
`symbol_id` it leaves the entire store observably unchanged. -/
theorem claim9_empty_batch (t : SymbolTable) (sid : SymbolId) :
    (t.get_symbol sid = none → t.resolve_reference [] sid = none)
    ∧ (∀ s : Symbol, t.get_symbol sid = some s →
        t.resolve_reference [] sid = some t) :=
  ⟨fun h => resolve_reference_none t [] sid h,
   fun s h => resolve_reference_nil t sid s h⟩

theorem claim9_witness :
    ((SymbolTable.mk [] []).resolve_reference [] ⟨1⟩ = none)
    ∧ ((SymbolTable.mk [Symbol.new ⟨1⟩ 0 "x" ⟨0, 1⟩ 0] []).resolve_reference [] ⟨1⟩ =
        some (SymbolTable.mk [Symbol.new ⟨1⟩ 0 "x" ⟨0, 1⟩ 0] [])) :=
  ⟨(claim9_empty_batch (SymbolTable.mk [] []) ⟨1⟩).1 (by decide),
   (claim9_empty_batch (SymbolTable.mk [Symbol.new ⟨1⟩ 0 "x" ⟨0, 1⟩ 0] []) ⟨1⟩).2
     (Symbol.new ⟨1⟩ 0 "x" ⟨0, 1⟩ 0) (by decide)⟩

/-- C10: immediately after `create` returns `id`, the stored Symbol carries
exactly the supplied declaration, name, span and flags, its stored id field
equals the returned id (the 1-based position in the arena), and its
references list is empty and stays empty across resolution calls targeting
other symbols. -/
theorem claim10_create_fields (t : SymbolTable) (d : AstNodeId) (n : Atom)
    (sp : Span) (f : SymbolFlags) :
    ((t.create d n sp f).1 = SymbolId.new (t.symbols.length + 1))
    ∧ ((t.create d n sp f).2.symbols.length = t.symbols.length + 1)
    ∧ ((t.create d n sp f).2.get_symbol (t.create d n sp f).1 =
        some (Symbol.mk (t.create d n sp f).1 d n sp f []))
    ∧ (∀ (refs : List Reference) (sid : SymbolId) (t'' : SymbolTable),
        sid ≠ (t.create d n sp f).1 →
        (t.create d n sp f).2.resolve_reference refs sid = some t'' →
        t''.get_symbol (t.create d n sp f).1 =
          some (Symbol.mk (t.create d n sp f).1 d n sp f [])) := by
  have hsym : (t.create d n sp f).2.symbols =
      t.symbols ++ [Symbol.new (SymbolId.new (t.symbols.length + 1)) d n sp f] :=
    rfl
  have hlen : (t.create d n sp f).2.symbols.length =
      t.symbols.length + 1 := by
    rw [hsym]
    simp
  have hid : (t.create d n sp f).1 = SymbolId.new (t.symbols.length + 1) :=
    rfl
  have hget : (t.create d n sp f).2.get_symbol (t.create d n sp f).1 =
      some (Symbol.mk (t.create d n sp f).1 d n sp f []) := by
    rw [get_symbol_eq, hid, hlen]
    have hc : 1 ≤ (SymbolId.new (t.symbols.length + 1)).id ∧
        (SymbolId.new (t.symbols.length + 1)).id ≤ t.symbols.length + 1 := by
      simp [SymbolId.new]
    rw [if_pos hc]
    show (t.create d n sp f).2.symbols.get? (t.symbols.length + 1 - 1) = _
    rw [hsym]
    have he : t.symbols.length + 1 - 1 = t.symbols.length := by omega
    rw [he, List.get?_concat_length]
    rfl
  refine ⟨hid, hlen, hget, ?_⟩
  intro refs sid t'' hne h
  obtain ⟨s0, hg0, hsyms, hres⟩ :=
    resolve_reference_some_inv (t.create d n sp f).2 refs sid t'' h
  obtain ⟨hs1, hs2, hs3⟩ :=
    get_symbol_some_facts (t.create d n sp f).2 sid s0 hg0
  have hsidne : sid.id ≠ t.symbols.length + 1 := by
    intro hc
    apply hne
    rw [hid, ← hc]
    exact (SymbolId.new_id sid).symm
  rw [get_symbol_eq, hid]
  have hlen'' : t''.symbols.length = t.symbols.length + 1 := by
    rw [hsyms, List.length_set, hlen]
  have hc : 1 ≤ (SymbolId.new (t.symbols.length + 1)).id ∧
      (SymbolId.new (t.symbols.length + 1)).id ≤ t''.symbols.length := by
    rw [hlen'']
    simp [SymbolId.new]
  rw [if_pos hc]
  show t''.symbols.get? (t.symbols.length + 1 - 1) = _
  have he : t.symbols.length + 1 - 1 = t.symbols.length := by omega
  rw [he, hsyms]
  have hne2 : sid.id - 1 ≠ t.symbols.length := by
    rw [hlen] at hs2
    omega
  rw [List.get?_set_ne _ _ hne2, hsym, List.get?_concat_length]
  rfl

theorem claim10_witness :
    (SymbolTable.mk [Symbol.mk ⟨1⟩ 0 "x" ⟨0, 1⟩ 0 [⟨1⟩], Symbol.new ⟨2⟩ 1 "y" ⟨2, 3⟩ 0] [⟨⟨⟨5, 6⟩, 0⟩, ⟨1⟩⟩]).get_symbol ⟨2⟩ =
      some (Symbol.mk ⟨2⟩ 1 "y" ⟨2, 3⟩ 0 []) := by
  have h := (claim10_create_fields (SymbolTable.mk
      [Symbol.new ⟨1⟩ 0 "x" ⟨0, 1⟩ 0] []) 1 "y" ⟨2, 3⟩ 0).2.2.2
    [⟨⟨5, 6⟩, 0⟩] ⟨1⟩
    (SymbolTable.mk [Symbol.mk ⟨1⟩ 0 "x" ⟨0, 1⟩ 0 [⟨1⟩], Symbol.new ⟨2⟩ 1 "y" ⟨2, 3⟩ 0] [⟨⟨⟨5, 6⟩, 0⟩, ⟨1⟩⟩])
    (by decide) (by decide)
  exact h

end Oxc
